import Mathlib

/-!
Verification of the UCI text-protocol codec of the ivy-engine repository.

The development shallowly embeds the command parsers
(`src/uci/cmd/parser/*.rs`), the message builders (`src/uci/msg/*.rs`) and
the shared error taxonomy (`src/uci/cmd/error.rs`).  Rust `&str` values are
modelled as `String`, `Vec<T>` as `List T`, `u64`/`usize`/`u32` as `Nat`
(the parsers only produce in-range values), `i64`/`i32` as `Int`, and
`Result<T, ParsingError>` as `Except ParsingError T`.

The two grammar checks of `parse_position.rs` use the Rust `regex` crate
with anchored patterns (`^...$`), so `Regex::is_match` is whole-string
matching.  They are embedded as abstract-syntax regexes together with a
Brzozowski-derivative matcher; character classes are lists of inclusive
code-point ranges.  `\s` is modelled by the Unicode White_Space code
points (the same set `str::split_whitespace` splits on) and `\d` by the
ASCII digits (the only digits relevant to the FEN grammar).
-/

namespace Ivy

/-- The error taxonomy of `src/uci/cmd/error.rs` (`ParsingError`). -/
inductive ParsingError
  /-- The first token mismatches the literal the parser requires. -/
  | InvalidCommandType (expected : String) (got : String)
  /-- The token count is outside the accepted bound. -/
  | InvalidLength (min max got : Nat)
  /-- A token fails the local grammar. -/
  | UnknownToken (token : String)
deriving DecidableEq, Repr

/-- Rust's `usize::MAX` on a 64-bit target, used in `InvalidLength` bounds. -/
def USIZE_MAX : Nat := 2 ^ 64 - 1

instance {ε α : Type} [DecidableEq ε] [DecidableEq α] : DecidableEq (Except ε α) := fun x y =>
  match x, y with
  | .ok a, .ok b =>
    if h : a = b then isTrue (by rw [h])
    else isFalse (by intro he; cases he; exact h rfl)
  | .error a, .error b =>
    if h : a = b then isTrue (by rw [h])
    else isFalse (by intro he; cases he; exact h rfl)
  | .ok _, .error _ => isFalse (by intro he; cases he)
  | .error _, .ok _ => isFalse (by intro he; cases he)

/-! ## Regular expressions (Brzozowski derivatives)

`src/uci/cmd/parser/parse_position.rs` validates FEN strings and move
strings with the Rust `regex` crate.  We embed the two patterns as regex
syntax trees and decide membership with derivatives. -/

/-- A character class: a union of inclusive code-point ranges. -/
def CC := List (Char × Char)

instance : DecidableEq CC := by
  unfold CC
  infer_instance

/-- Does character `c` fall into the class `rs`? -/
def memCC (rs : CC) (c : Char) : Bool :=
  rs.any (fun p => p.1.toNat ≤ c.toNat && c.toNat ≤ p.2.toNat)

/-- Regex syntax: empty language, empty string, character class,
concatenation, alternation, Kleene star. -/
inductive Rx
  | emp
  | eps
  | cls (rs : CC)
  | cat (a b : Rx)
  | alt (a b : Rx)
  | star (a : Rx)
deriving DecidableEq

/-- Does the regex accept the empty string? -/
def nullable : Rx → Bool
  | .emp => false
  | .eps => true
  | .cls _ => false
  | .cat a b => nullable a && nullable b
  | .alt a b => nullable a || nullable b
  | .star _ => true

/-- Smart alternation: drops `emp` branches and duplicate branches. -/
def ralt (a b : Rx) : Rx :=
  if a = Rx.emp then b
  else if b = Rx.emp then a
  else if a = b then a
  else .alt a b

/-- Smart concatenation: absorbs `emp` and erases `eps`. -/
def rcat (a b : Rx) : Rx :=
  if a = Rx.emp ∨ b = Rx.emp then .emp
  else if a = Rx.eps then b
  else if b = Rx.eps then a
  else .cat a b

/-- Brzozowski derivative of a regex by a character. -/
def deriv (c : Char) : Rx → Rx
  | .emp => .emp
  | .eps => .emp
  | .cls rs => if memCC rs c then .eps else .emp
  | .cat a b =>
      if nullable a then ralt (rcat (deriv c a) b) (deriv c b)
      else rcat (deriv c a) b
  | .alt a b => ralt (deriv c a) (deriv c b)
  | .star a => rcat (deriv c a) (.star a)

/-- Whole-string regex match (the pattern is anchored with `^...$`). -/
def rmatch (r : Rx) (s : String) : Bool :=
  nullable (s.data.foldl (fun acc c => deriv c acc) r)

/-- Optional occurrence, the pattern suffix `?`. -/
def rxOpt (r : Rx) : Rx := .alt .eps r

/-- One or more occurrences, the pattern suffix `+`. -/
def rxPlus (r : Rx) : Rx := .cat r (.star r)

/-- Exactly n occurrences, the pattern suffix `{n}`. -/
def rxRep (r : Rx) : Nat → Rx
  | 0 => .eps
  | n + 1 => .cat r (rxRep r n)

/-- The Unicode White_Space code points: the set matched by the `regex`
crate's `\s` and split on by `str::split_whitespace`. -/
def spaceCC : CC :=
  [(Char.ofNat 9, Char.ofNat 13), (' ', ' '),
   (Char.ofNat 0x85, Char.ofNat 0x85), (Char.ofNat 0xA0, Char.ofNat 0xA0),
   (Char.ofNat 0x1680, Char.ofNat 0x1680),
   (Char.ofNat 0x2000, Char.ofNat 0x200A),
   (Char.ofNat 0x2028, Char.ofNat 0x2028), (Char.ofNat 0x2029, Char.ofNat 0x2029),
   (Char.ofNat 0x202F, Char.ofNat 0x202F), (Char.ofNat 0x205F, Char.ofNat 0x205F),
   (Char.ofNat 0x3000, Char.ofNat 0x3000)]

/-- Is `c` a whitespace character (Unicode White_Space)? -/
def isSpaceChar (c : Char) : Bool := memCC spaceCC c

/-- Whitespace runs, the pattern `\s+`. -/
def rxSpaces : Rx := rxPlus (.cls spaceCC)

/-- Digit runs, the pattern `\d+` (the FEN fields only use ASCII digits). -/
def rxDigits : Rx := rxPlus (.cls [('0', '9')])

/-- The rank-item alphabet `[pnbrqkPNBRQK1-8]` of the FEN regex. -/
def rankCC : CC :=
  [('p', 'p'), ('n', 'n'), ('b', 'b'), ('r', 'r'), ('q', 'q'), ('k', 'k'),
   ('P', 'P'), ('N', 'N'), ('B', 'B'), ('R', 'R'), ('Q', 'Q'), ('K', 'K'),
   ('1', '8')]

/-- The `RankItem` group `[pnbrqkPNBRQK1-8]{1,8}` of `FEN_REGEX`. -/
def rankItem : Rx := .cat (.cls rankCC) (rxRep (rxOpt (.cls rankCC)) 7)

/-- The `PiecePlacement` group `((RankItem)\/?){8}` of `FEN_REGEX`. -/
def piecePlacement : Rx := rxRep (.cat rankItem (rxOpt (.cls [('/', '/')]))) 8

/-- The `SideToMove` group `b|w` of `FEN_REGEX`. -/
def sideToMove : Rx := .alt (.cls [('b', 'b')]) (.cls [('w', 'w')])

/-- The `Castling` group `-|K?Q?k?q` of `FEN_REGEX`. -/
def castling : Rx :=
  .alt (.cls [('-', '-')])
    (.cat (rxOpt (.cls [('K', 'K')]))
      (.cat (rxOpt (.cls [('Q', 'Q')]))
        (.cat (rxOpt (.cls [('k', 'k')])) (.cls [('q', 'q')]))))

/-- The `EnPassant` group `-|[a-h][3-6]` of `FEN_REGEX`. -/
def enPassant : Rx :=
  .alt (.cls [('-', '-')]) (.cat (.cls [('a', 'h')]) (.cls [('3', '6')]))

/-- The `FEN_REGEX` pattern of `parse_position.rs`:
`^PiecePlacement\s+SideToMove\s+Castling\s+EnPassant\s+\d+\s+\d+\s*$`. -/
def FEN_REGEX : Rx :=
  .cat piecePlacement
    (.cat rxSpaces
      (.cat sideToMove
        (.cat rxSpaces
          (.cat castling
            (.cat rxSpaces
              (.cat enPassant
                (.cat rxSpaces
                  (.cat rxDigits
                    (.cat rxSpaces
                      (.cat rxDigits (.star (.cls spaceCC))))))))))))

/-- The `MOVE_REGEX` pattern of `parse_position.rs`:
`^[a-h][1-8][a-h][1-8][rnbqRNBQ]?$`. -/
def MOVE_REGEX : Rx :=
  .cat (.cls [('a', 'h')])
    (.cat (.cls [('1', '8')])
      (.cat (.cls [('a', 'h')])
        (.cat (.cls [('1', '8')])
          (rxOpt (.cls [('r', 'r'), ('n', 'n'), ('b', 'b'), ('q', 'q'),
                        ('R', 'R'), ('N', 'N'), ('B', 'B'), ('Q', 'Q')])))))

/-- The function `is_valid_fen` of `parse_position.rs`. -/
def is_valid_fen (fen : String) : Bool := rmatch FEN_REGEX fen

/-- The function `is_valid_move` of `parse_position.rs`. -/
def is_valid_move (move_str : String) : Bool := rmatch MOVE_REGEX move_str

/-! ## Commands and command parsers -/

/-- A command sent to the engine (`src/uci/cmd/command.rs`): the ordered
token list extracted from one input line. -/
structure Command where
  tokens : List String
deriving DecidableEq

/-- The helper `try_single_token_cmd` of
`src/uci/cmd/parser/single_token.rs`: exactly one token, equal to `val`. -/
def try_single_token_cmd (cmd : Command) (val : String) : Except ParsingError Unit :=
  if cmd.tokens.length ≠ 1 then
    .error (.InvalidLength 1 1 cmd.tokens.length)
  else if cmd.tokens.headD "" ≠ val then
    .error (.InvalidCommandType val (cmd.tokens.headD ""))
  else
    .ok ()

/-- The parser `try_parse_uci_cmd` of `parse_uci.rs` (an inline copy of the
single-token validation with literal "uci"). -/
def try_parse_uci_cmd (cmd : Command) : Except ParsingError Unit :=
  if cmd.tokens.length ≠ 1 then
    .error (.InvalidLength 1 1 cmd.tokens.length)
  else if cmd.tokens.headD "" ≠ "uci" then
    .error (.InvalidCommandType "uci" (cmd.tokens.headD ""))
  else
    .ok ()

/-- The parser `try_parse_is_ready_cmd` of `parse_is_ready.rs`. -/
def try_parse_is_ready_cmd (cmd : Command) : Except ParsingError Unit :=
  try_single_token_cmd cmd "isready"

/-- The parser `try_parse_uci_new_game_cmd` of `parse_new_game.rs`. -/
def try_parse_uci_new_game_cmd (cmd : Command) : Except ParsingError Unit :=
  try_single_token_cmd cmd "ucinewgame"

/-- The parser `try_parse_stop_cmd` of `parse_stop.rs`. -/
def try_parse_stop_cmd (cmd : Command) : Except ParsingError Unit :=
  try_single_token_cmd cmd "stop"

/-- The parser `try_parse_quit_cmd` of `parse_quit.rs`. -/
def try_parse_quit_cmd (cmd : Command) : Except ParsingError Unit :=
  try_single_token_cmd cmd "quit"

/-- The parser `try_parse_debug_cmd` of `parse_debug.rs`. -/
def try_parse_debug_cmd (cmd : Command) : Except ParsingError Bool :=
  if cmd.tokens.length ≠ 2 then
    .error (.InvalidLength 2 2 cmd.tokens.length)
  else if cmd.tokens.headD "" ≠ "debug" then
    .error (.InvalidCommandType "debug" (cmd.tokens.headD ""))
  else
    let second := (cmd.tokens.drop 1).headD ""
    if second = "on" then .ok true
    else if second = "off" then .ok false
    else .error (.UnknownToken second)

/-- Rust's `str::parse::<u64>()`: an optional leading sign (`+` only for an
unsigned target type), then one or more ASCII digits, rejecting values
outside the 64-bit range. -/
def parseU64 (s : String) : Option Nat :=
  let body :=
    match s.data with
    | '+' :: rest => rest
    | l => l
  if body ≠ [] ∧ body.all (fun c => c.isDigit) then
    let n := body.foldl (fun n c => n * 10 + (c.toNat - 48)) 0
    if n < 2 ^ 64 then some n else none
  else none

/-- The payload of a `go` command (`GoCommandPayload` in `parse_go.rs`). -/
structure GoCommandPayload where
  movetime : Nat
  infinite : Bool
deriving DecidableEq, Repr

/-- The keyword-stream loop of `try_parse_go_cmd` (`parse_go.rs` lines
55-84): scans `cmd.tokens[1..]` left to right, carrying the current
`movetime` and `infinite` values. -/
def goLoop : List String → Nat → Bool → Except ParsingError GoCommandPayload
  | [], movetime, infinite => .ok ⟨movetime, infinite⟩
  | t :: rest, movetime, infinite =>
    if t = "movetime" then
      match rest with
      | [] => .error (.UnknownToken t)
      | v :: rest2 =>
        match parseU64 v with
        | some time => goLoop rest2 time infinite
        | none => .error (.UnknownToken v)
    else if t = "infinite" then
      goLoop rest movetime true
    else
      .error (.UnknownToken t)

/-- The parser `try_parse_go_cmd` of `parse_go.rs`. -/
def try_parse_go_cmd (cmd : Command) : Except ParsingError GoCommandPayload :=
  if cmd.tokens.length < 2 then
    .error (.InvalidLength 2 USIZE_MAX cmd.tokens.length)
  else if cmd.tokens.headD "" ≠ "go" then
    .error (.InvalidCommandType "go" (cmd.tokens.headD ""))
  else
    goLoop (cmd.tokens.drop 1) 0 false

/-- The payload of a `setoption` command (`OptionCommandPayload` in
`parse_option.rs`). -/
structure OptionCommandPayload where
  name : String
  value : String
deriving DecidableEq, Repr

/-- The keyword-stream loop of `try_parse_option_cmd` (`parse_option.rs`
lines 49-80). -/
def optionLoop : List String → String → String → Except ParsingError OptionCommandPayload
  | [], name, value => .ok ⟨name, value⟩
  | t :: rest, name, value =>
    if t = "name" then
      match rest with
      | [] => .error (.UnknownToken t)
      | v :: rest2 => optionLoop rest2 v value
    else if t = "value" then
      match rest with
      | [] => .error (.UnknownToken t)
      | v :: rest2 => optionLoop rest2 name v
    else
      .error (.UnknownToken t)

/-- The parser `try_parse_option_cmd` of `parse_option.rs`. -/
def try_parse_option_cmd (cmd : Command) : Except ParsingError OptionCommandPayload :=
  if cmd.tokens.length < 3 then
    .error (.InvalidLength 3 USIZE_MAX cmd.tokens.length)
  else if cmd.tokens.headD "" ≠ "setoption" then
    .error (.InvalidCommandType "setoption" (cmd.tokens.headD ""))
  else
    optionLoop (cmd.tokens.drop 1) "" ""

/-- The payload of a `position` command (`PositionCommandPayload` in
`parse_position.rs`). -/
structure PositionCommandPayload where
  fen : String
  moves : List String
deriving DecidableEq, Repr

/-- The standard initial-position FEN substituted for "startpos"
(`parse_position.rs` line 69). -/
def startposFEN : String :=
  "rnbqkbnr/pppppppp/8/8/8/8/PPPPPPPP/RNBQKBNR w KQkq - 0 1"

/-- The parser `try_parse_position_cmd` of `parse_position.rs`.  The FEN
segment is the maximal run of tokens after the first one that differ from
"moves"; a match on its length picks the FEN candidate; everything after
the "moves" marker is the move list. -/
def try_parse_position_cmd (cmd : Command) : Except ParsingError PositionCommandPayload :=
  if cmd.tokens.length < 2 then
    .error (.InvalidLength 2 USIZE_MAX cmd.tokens.length)
  else
    let fen_tokens := (cmd.tokens.drop 1).takeWhile (fun t => t ≠ "moves")
    let fen0 : Except ParsingError String :=
      if fen_tokens.length = 1 then .ok (fen_tokens.headD "")
      else if fen_tokens.length = 7 then
        .ok (String.intercalate " " (fen_tokens.drop 1))
      else .error (.InvalidLength 7 7 fen_tokens.length)
    match fen0 with
    | .error e => .error e
    | .ok f0 =>
      let fen := if f0 = "startpos" then startposFEN else f0
      if is_valid_fen fen then
        let offset := 1 + fen_tokens.length
        let moves := if cmd.tokens.length > offset then cmd.tokens.drop offset else []
        let fen_moves := if moves.length > 0 then moves.drop 1 else []
        if fen_moves.any (fun m => !is_valid_move m) then
          .error (.UnknownToken (fen_moves.headD ""))
        else
          .ok ⟨fen, fen_moves⟩
      else
        .error (.UnknownToken fen)

/-! ## Message builders -/

/-- The score of a move (`Score` in `src/uci/msg/info_msg.rs`). -/
inductive Score
  | Cp (cp : Int)
  | Mate (mate : Int)
deriving DecidableEq, Repr

/-- Search telemetry (`MoveInfo` in `src/uci/msg/info_msg.rs`). -/
inductive MoveInfo
  | Depth (depth : Nat)
  | SelDepth (sel_depth : Nat)
  | Time (time : Nat)
  | Nodes (nodes : Nat)
  | Pv (pv : List String)
  | Score (score : Score) (lower_bound : Bool) (upper_bound : Bool)
  | CurrMove (curr_move : String)
  | CurrMoveNumber (curr_move_number : Nat)
  | HashFull (hash_full : Nat)
  | Nps (nps : Nat)
  | TbHits (tb_hits : Nat)
  | Cpuload (cpuload : Nat)
  | Custom (custom : String)
  | Refutation (refutation : List String)
  | MultiPv (multi_pv : Nat)
  | CurrLine (task : Nat) (line : List String)
deriving DecidableEq, Repr

/-- The closure `fmt_score` of `build_info_msg` (`info_msg.rs` lines
117-132). -/
def fmt_score (score : Score) (lb ub : Bool) : String :=
  (match score with
   | .Cp cp => " score cp " ++ toString cp
   | .Mate mate => " score mate " ++ toString mate)
  ++ (if lb then " lowerbound" else "")
  ++ (if ub then " upperbound" else "")

/-- One iteration of the `for part in info` loop of `build_info_msg`
(`info_msg.rs` lines 134-167): the state is the message built so far and
the buffered `string_info` text. -/
def infoStep (st : String × Option String) (part : MoveInfo) : String × Option String :=
  match part with
  | .Depth depth => (st.1 ++ " depth " ++ toString depth, st.2)
  | .SelDepth sel_depth => (st.1 ++ " seldepth " ++ toString sel_depth, st.2)
  | .Time time => (st.1 ++ " time " ++ toString time, st.2)
  | .Nodes nodes => (st.1 ++ " nodes " ++ toString nodes, st.2)
  | .Pv pv => (st.1 ++ " pv " ++ String.intercalate " " pv, st.2)
  | .MultiPv multi_pv => (st.1 ++ " multipv " ++ toString multi_pv, st.2)
  | .HashFull hash_full => (st.1 ++ " hashfull " ++ toString hash_full, st.2)
  | .Nps nps => (st.1 ++ " nps " ++ toString nps, st.2)
  | .TbHits tb_hits => (st.1 ++ " tbhits " ++ toString tb_hits, st.2)
  | .Cpuload cpuload => (st.1 ++ " cpuload " ++ toString cpuload, st.2)
  | .Custom custom => (st.1, some custom)
  | .CurrMove curr_move => (st.1 ++ " currmove " ++ curr_move, st.2)
  | .Score score lb ub => (st.1 ++ fmt_score score lb ub, st.2)
  | .CurrMoveNumber n => (st.1 ++ " currmovenumber " ++ toString n, st.2)
  | .Refutation refutation =>
      (st.1 ++ " refutation " ++ String.intercalate " " refutation, st.2)
  | .CurrLine cpu line =>
      (st.1 ++ " currline " ++ toString cpu ++ " " ++ String.intercalate " " line, st.2)

/-- The builder `build_info_msg` of `info_msg.rs`. -/
def build_info_msg (info : List MoveInfo) : String :=
  let st := info.foldl infoStep ("info", none)
  match st.2 with
  | some custom => st.1 ++ " string " ++ custom
  | none => st.1

/-- The kind of a tunable option (`OptionType` in `src/uci/msg/option_msg.rs`). -/
inductive OptionType
  | Check
  | Spin
  | Combo
  | Button
  | String
deriving DecidableEq, Repr

/-- An option message (`OptionMsg` in `option_msg.rs`). -/
structure OptionMsg where
  id : String
  option_type : OptionType
  default : String
  min : Int
  max : Int
  var : List String
deriving DecidableEq, Repr

/-- The constructor `OptionMsg::new_spin`. -/
def OptionMsg.new_spin (id default : String) (min max : Int) : OptionMsg :=
  ⟨id, .Spin, default, min, max, []⟩

/-- The constructor `OptionMsg::new_combo`. -/
def OptionMsg.new_combo (id default : String) (var : List String) : OptionMsg :=
  ⟨id, .Combo, default, 0, 0, var⟩

/-- The constructor `OptionMsg::new_button`. -/
def OptionMsg.new_button (id : String) : OptionMsg :=
  ⟨id, .Button, "", 0, 0, []⟩

/-- The constructor `OptionMsg::new_string`. -/
def OptionMsg.new_string (id default : String) : OptionMsg :=
  ⟨id, .String, default, 0, 0, []⟩

/-- The constructor `OptionMsg::new_check` (the boolean default is
rendered with Rust's `bool::to_string`). -/
def OptionMsg.new_check (id : String) (default : Bool) : OptionMsg :=
  ⟨id, .Check, if default then "true" else "false", 0, 0, []⟩

/-- The predicate `OptionMsg::has_min_max` (`option_msg.rs` lines 169-171). -/
def OptionMsg.has_min_max (o : OptionMsg) : Bool := o.option_type = .Spin

/-- The predicate `OptionMsg::has_var` (`option_msg.rs` lines 173-175). -/
def OptionMsg.has_var (o : OptionMsg) : Bool := o.option_type = .Combo

/-- The predicate `OptionMsg::has_default` (`option_msg.rs` lines 177-179). -/
def OptionMsg.has_default (o : OptionMsg) : Bool := o.option_type ≠ .Button

/-- The keyword rendered for each option kind (`option_msg.rs` lines
202-208). -/
def optionTypeKeyword : OptionType → String
  | .Check => "check"
  | .Spin => "spin"
  | .Combo => "combo"
  | .Button => "button"
  | .String => "string"

/-- The builder `build_option_msg` of `option_msg.rs`. -/
def build_option_msg (option : OptionMsg) : String :=
  let msg := "option name " ++ option.id ++ " type " ++ optionTypeKeyword option.option_type
  let msg := if option.has_default then msg ++ " default " ++ option.default else msg
  let msg :=
    if option.has_min_max ∧ option.min ≠ option.max then
      msg ++ " min " ++ toString option.min ++ " max " ++ toString option.max
    else msg
  let msg :=
    if option.has_var ∧ option.var.length > 0 then
      msg ++ " var " ++ String.intercalate " " option.var
    else msg
  msg

/-! ## Specification-side descriptions

Declarative restatements of the behaviour claimed by the specification,
used as the right-hand sides of the theorems below. -/

/-- The values that follow each "movetime" keyword of a `go` keyword
stream, in order (a "movetime" with no follower contributes nothing). -/
def movetimeValues : List String → List Nat
  | [] => []
  | t :: rest =>
    if t = "movetime" then
      match rest with
      | [] => []
      | v :: rest2 => (parseU64 v).getD 0 :: movetimeValues rest2
    else movetimeValues rest

/-- A valid keyword stream over {"movetime", "infinite"}: every
"movetime" is followed by a token that parses as a non-negative 64-bit
integer, and every other token is "infinite". -/
inductive GoStream : List String → Prop
  | nil : GoStream []
  | movetime (v : String) (rest : List String) :
      parseU64 v ≠ none → GoStream rest → GoStream ("movetime" :: v :: rest)
  | infinite (rest : List String) :
      GoStream rest → GoStream ("infinite" :: rest)

/-- Is this entry the `Custom` variant? -/
def MoveInfo.isCustom : MoveInfo → Bool
  | .Custom _ => true
  | _ => false

/-- The space-prefixed fragment an info entry renders to (empty for the
`Custom` variant, which is never rendered in place). -/
def infoFragment : MoveInfo → String
  | .Depth depth => " depth " ++ toString depth
  | .SelDepth sel_depth => " seldepth " ++ toString sel_depth
  | .Time time => " time " ++ toString time
  | .Nodes nodes => " nodes " ++ toString nodes
  | .Pv pv => " pv " ++ String.intercalate " " pv
  | .MultiPv multi_pv => " multipv " ++ toString multi_pv
  | .HashFull hash_full => " hashfull " ++ toString hash_full
  | .Nps nps => " nps " ++ toString nps
  | .TbHits tb_hits => " tbhits " ++ toString tb_hits
  | .Cpuload cpuload => " cpuload " ++ toString cpuload
  | .Custom _ => ""
  | .CurrMove curr_move => " currmove " ++ curr_move
  | .Score score lb ub => fmt_score score lb ub
  | .CurrMoveNumber n => " currmovenumber " ++ toString n
  | .Refutation refutation => " refutation " ++ String.intercalate " " refutation
  | .CurrLine cpu line => " currline " ++ toString cpu ++ " " ++ String.intercalate " " line

/-- The concatenation of the fragments of all non-`Custom` entries, in
input order. -/
def nonCustomFrags : List MoveInfo → String
  | [] => ""
  | i :: rest =>
    if i.isCustom then nonCustomFrags rest
    else infoFragment i ++ nonCustomFrags rest

/-- Fold the `Custom` buffer over a list of entries: each `Custom` entry
overwrites the buffer with its text. -/
def customFold (buf : Option String) : List MoveInfo → Option String
  | [] => buf
  | .Custom c :: rest => customFold (some c) rest
  | _ :: rest => customFold buf rest

/-- The text of the last `Custom` entry of the list, if any. -/
def lastCustomText (info : List MoveInfo) : Option String := customFold none info

/-! ## Helper lemmas -/

/-- Every character a class of `rs` can match is a whitespace character. -/
def ccOnlySpace (rs : CC) : Bool :=
  rs.all (fun p => spaceCC.any (fun q => q.1.toNat ≤ p.1.toNat && p.2.toNat ≤ q.2.toNat))

/-- A conservative check that every string of the regex's language
contains at least one whitespace character. -/
def mustSpace : Rx → Bool
  | .emp => true
  | .eps => false
  | .cls rs => ccOnlySpace rs
  | .cat a b => mustSpace a || mustSpace b
  | .alt a b => mustSpace a && mustSpace b
  | .star _ => false

theorem ccOnlySpace_mem {rs : CC} {c : Char} (h1 : ccOnlySpace rs = true)
    (h2 : memCC rs c = true) : isSpaceChar c = true := by
  unfold memCC at h2
  obtain ⟨p, hp, hcmp⟩ := List.any_eq_true.mp h2
  have hall := List.all_eq_true.mp h1 p hp
  obtain ⟨q, hq, hqcmp⟩ := List.any_eq_true.mp hall
  unfold isSpaceChar memCC
  refine List.any_eq_true.mpr ⟨q, hq, ?_⟩
  simp only [Bool.and_eq_true, decide_eq_true_eq] at hcmp hqcmp ⊢
  omega

theorem mustSpace_not_nullable : ∀ r : Rx, mustSpace r = true → nullable r = false := by
  intro r
  induction r with
  | emp => simp [mustSpace, nullable]
  | eps => simp [mustSpace]
  | cls rs => simp [nullable]
  | cat a b iha ihb =>
    simp only [mustSpace, nullable, Bool.or_eq_true, Bool.and_eq_false_iff]
    rintro (h | h)
    · exact Or.inl (iha h)
    · exact Or.inr (ihb h)
  | alt a b iha ihb =>
    simp only [mustSpace, nullable, Bool.and_eq_true, Bool.or_eq_false_iff]
    rintro ⟨h1, h2⟩
    exact ⟨iha h1, ihb h2⟩
  | star a iha => simp [mustSpace]

theorem mustSpace_rcat {a b : Rx} (h : mustSpace a = true ∨ mustSpace b = true) :
    mustSpace (rcat a b) = true := by
  unfold rcat
  split_ifs with h1 h2 h3
  · simp [mustSpace]
  · subst h2
    rcases h with h | h
    · simp [mustSpace] at h
    · exact h
  · subst h3
    rcases h with h | h
    · exact h
    · simp [mustSpace] at h
  · simp only [mustSpace, Bool.or_eq_true]
    exact h

theorem mustSpace_ralt {a b : Rx} (ha : mustSpace a = true) (hb : mustSpace b = true) :
    mustSpace (ralt a b) = true := by
  unfold ralt
  split_ifs with h1 h2 h3
  · exact hb
  · exact ha
  · exact ha
  · simp only [mustSpace, Bool.and_eq_true]
    exact ⟨ha, hb⟩

theorem mustSpace_deriv {c : Char} (hc : isSpaceChar c = false) :
    ∀ {r : Rx}, mustSpace r = true → mustSpace (deriv c r) = true := by
  intro r
  induction r with
  | emp => intro h; simpa [deriv] using h
  | eps => intro h; simp [mustSpace] at h
  | cls rs =>
    intro h
    unfold deriv
    by_cases hm : memCC rs c = true
    · exact absurd (ccOnlySpace_mem h hm) (by simp [hc])
    · simp [hm, mustSpace]
  | cat a b iha ihb =>
    intro h
    simp only [mustSpace, Bool.or_eq_true] at h
    unfold deriv
    by_cases hn : nullable a = true
    · have hma : mustSpace a = false := by
        by_contra hma
        have := mustSpace_not_nullable a (by simpa using hma)
        rw [this] at hn
        exact Bool.false_ne_true hn
      have hmb : mustSpace b = true := by
        rcases h with h | h
        · rw [hma] at h; exact absurd h Bool.false_ne_true
        · exact h
      rw [if_pos hn]
      exact mustSpace_ralt (mustSpace_rcat (Or.inr hmb)) (ihb hmb)
    · rw [if_neg hn]
      rcases h with h | h
      · exact mustSpace_rcat (Or.inl (iha h))
      · exact mustSpace_rcat (Or.inr h)
  | alt a b iha ihb =>
    intro h
    simp only [mustSpace, Bool.and_eq_true] at h
    unfold deriv
    exact mustSpace_ralt (iha h.1) (ihb h.2)
  | star a iha => intro h; simp [mustSpace] at h

theorem mustSpace_no_space_chars {s : List Char} :
    ∀ {r : Rx}, mustSpace r = true → (∀ c ∈ s, isSpaceChar c = false) →
      nullable (s.foldl (fun acc c => deriv c acc) r) = false := by
  induction s with
  | nil => intro r h _; exact mustSpace_not_nullable r h
  | cons c s ih =>
    intro r h hs
    simp only [List.foldl_cons]
    exact ih (mustSpace_deriv (hs c (List.mem_cons_self c s)) h)
      (fun d hd => hs d (List.mem_cons_of_mem c hd))

theorem mustSpace_FEN : mustSpace FEN_REGEX = true := by decide

/-- A whitespace-free string never satisfies the FEN grammar (the grammar
requires whitespace between its fields). -/
theorem is_valid_fen_no_space {t : String} (hw : ∀ c ∈ t.data, isSpaceChar c = false) :
    is_valid_fen t = false :=
  mustSpace_no_space_chars mustSpace_FEN hw

theorem foldl_infoStep (info : List MoveInfo) :
    ∀ (m : String) (buf : Option String),
      info.foldl infoStep (m, buf) = (m ++ nonCustomFrags info, customFold buf info) := by
  induction info with
  | nil => intro m buf; simp [nonCustomFrags, customFold, String.append_empty]
  | cons i rest ih =>
    intro m buf
    cases i <;>
      simp [infoStep, nonCustomFrags, customFold, MoveInfo.isCustom, infoFragment, ih,
        String.append_assoc]

/-- The full characterization of `build_info_msg`: the fragments of the
non-`Custom` entries in input order, then the final string fragment of
the last `Custom` entry, if one exists. -/
theorem build_info_msg_eq (info : List MoveInfo) :
    build_info_msg info =
      "info" ++ nonCustomFrags info ++
        (match lastCustomText info with
         | some text => " string " ++ text
         | none => "") := by
  unfold build_info_msg lastCustomText
  rw [foldl_infoStep]
  cases h : customFold none info <;>
    simp [String.append_empty, String.append_assoc]

theorem nonCustomFrags_append (a b : List MoveInfo) :
    nonCustomFrags (a ++ b) = nonCustomFrags a ++ nonCustomFrags b := by
  induction a with
  | nil => simp [nonCustomFrags, String.empty_append]
  | cons i rest ih =>
    by_cases h : i.isCustom <;>
      simp [nonCustomFrags, h, ih, String.append_assoc]

theorem customFold_append (buf : Option String) (a b : List MoveInfo) :
    customFold buf (a ++ b) = customFold (customFold buf a) b := by
  induction a generalizing buf with
  | nil => simp [customFold]
  | cons i rest ih => cases i <;> simp [customFold, ih]

theorem customFold_congr (b b' : Option String) :
    ∀ rest : List MoveInfo, (∃ u, MoveInfo.Custom u ∈ rest) →
      customFold b rest = customFold b' rest := by
  intro rest
  induction rest with
  | nil => rintro ⟨u, hu⟩; simp at hu
  | cons i rest ih =>
    rintro ⟨u, hu⟩
    rcases List.mem_cons.mp hu with h1 | h2
    · subst h1
      simp [customFold]
    · cases i <;> simp [customFold] <;> exact ih ⟨u, h2⟩

theorem movetimeValues_cons_movetime (v : String) (rest : List String) :
    movetimeValues ("movetime" :: v :: rest) = (parseU64 v).getD 0 :: movetimeValues rest := by
  simp [movetimeValues]

theorem movetimeValues_cons_other {t : String} (h : t ≠ "movetime") (rest : List String) :
    movetimeValues (t :: rest) = movetimeValues rest := by
  cases rest <;> simp [movetimeValues, h]

theorem goLoop_movetime_some {v : String} {n : Nat} (hn : parseU64 v = some n)
    (rest : List String) (mt : Nat) (inf : Bool) :
    goLoop ("movetime" :: v :: rest) mt inf = goLoop rest n inf := by
  simp [goLoop, hn]

theorem goLoop_movetime_none {v : String} (hn : parseU64 v = none)
    (rest : List String) (mt : Nat) (inf : Bool) :
    goLoop ("movetime" :: v :: rest) mt inf = .error (.UnknownToken v) := by
  simp [goLoop, hn]

theorem goLoop_infinite (rest : List String) (mt : Nat) (inf : Bool) :
    goLoop ("infinite" :: rest) mt inf = goLoop rest mt true := by
  cases rest <;> simp [goLoop]

theorem getLastD_cons (l : List Nat) :
    ∀ (x d : Nat), ((x :: l).getLast?).getD d = (l.getLast?).getD x := by
  induction l with
  | nil => intro x d; rfl
  | cons y l ih =>
    intro x d
    rw [List.getLast?_cons_cons, ih y d, ih y x]

theorem parseU64_some_ne_infinite {v : String} (hv : parseU64 v ≠ none) : v ≠ "infinite" := by
  intro h
  subst h
  exact hv (by decide)

theorem goLoop_stream {ts : List String} (h : GoStream ts) :
    ∀ (mt : Nat) (inf : Bool),
      goLoop ts mt inf =
        .ok ⟨((movetimeValues ts).getLast?).getD mt, inf || ts.contains "infinite"⟩ := by
  induction h with
  | nil => intro mt inf; simp [goLoop, movetimeValues]
  | movetime v rest hv hs ih =>
    intro mt inf
    obtain ⟨n, hn⟩ := Option.ne_none_iff_exists'.mp hv
    have hvne : ("infinite" : String) ≠ v := Ne.symm (parseU64_some_ne_infinite hv)
    rw [movetimeValues_cons_movetime, hn, goLoop_movetime_some hn, ih n inf, getLastD_cons]
    simp [List.contains_cons, hvne]
  | infinite rest hs ih =>
    intro mt inf
    rw [goLoop_infinite, ih mt true,
      movetimeValues_cons_other (by simp : ("infinite" : String) ≠ "movetime")]
    simp [List.contains_cons]

theorem goLoop_stream_append {pre : List String} (h : GoStream pre) :
    ∀ (more : List String) (mt : Nat) (inf : Bool),
      ∃ mt2 inf2, goLoop (pre ++ more) mt inf = goLoop more mt2 inf2 := by
  induction h with
  | nil => intro more mt inf; exact ⟨mt, inf, rfl⟩
  | movetime v rest hv hs ih =>
    intro more mt inf
    obtain ⟨n, hn⟩ := Option.ne_none_iff_exists'.mp hv
    have hstep : goLoop (("movetime" :: v :: rest) ++ more) mt inf
        = goLoop (rest ++ more) n inf := by
      simp [goLoop, hn]
    rw [hstep]
    exact ih more n inf
  | infinite rest hs ih =>
    intro more mt inf
    rw [List.cons_append, goLoop_infinite]
    exact ih more mt true

theorem goLoop_movetime_alone (mt : Nat) (inf : Bool) :
    goLoop ["movetime"] mt inf = .error (.UnknownToken "movetime") := by
  simp [goLoop]

theorem try_parse_go_cons (rest : List String) (hne : rest ≠ []) :
    try_parse_go_cmd ⟨"go" :: rest⟩ = goLoop rest 0 false := by
  have hlen : ¬ ((("go" :: rest : List String)).length < 2) := by
    cases rest with
    | nil => exact absurd rfl hne
    | cons a l => simp [List.length_cons]
  unfold try_parse_go_cmd
  rw [if_neg hlen, if_neg (by simp : ¬ ((("go" :: rest : List String)).headD "" ≠ "go"))]
  rfl

/-! ## Claims -/

/-- C1: the claim says that for every token sequence of length at least 2
whose first token is not "position", `try_parse_position_cmd` fails with
`InvalidCommandType` and never returns a payload.  The code performs no
first-token check at all: on tokens `["x", "startpos"]` it succeeds and
returns the startpos payload. -/
theorem position_parser_accepts_foreign_first_token :
    try_parse_position_cmd ⟨["x", "startpos"]⟩ = .ok ⟨startposFEN, []⟩ ∧
    "x" ≠ "position" := by
  constructor
  · decide
  · decide

/-- C2: the claim says the error token is the first non-matching move of
the segment.  On `["position", "startpos", "moves", "e2e4", "xx"]` the only
non-matching move is "xx", yet the code reports `UnknownToken` with the
first move of the segment, the perfectly valid "e2e4". -/
theorem position_move_error_reports_first_move :
    try_parse_position_cmd ⟨["position", "startpos", "moves", "e2e4", "xx"]⟩
      = .error (.UnknownToken "e2e4") ∧
    is_valid_move "e2e4" = true ∧ is_valid_move "xx" = false := by
  refine ⟨by decide, by decide, by decide⟩

/-- C3: the claim says the FEN validator rejects candidates whose rank
groups are not '/'-separated.  The regex makes every '/' optional, so a
piece-placement field with no '/' at all is accepted. -/
theorem fen_regex_accepts_unseparated_ranks :
    is_valid_fen "88888888 w - - 0 0" = true ∧
    ("88888888 w - - 0 0".data.count '/') = 0 := by
  constructor
  · decide
  · decide

/-- C4: a position command whose FEN segment is a single token other than
"startpos" is checked against the FEN grammar and, because tokens contain
no whitespace while the grammar demands whitespace between fields, always
fails with `UnknownToken` carrying that token. -/
theorem position_bare_fen_token_rejected (t : String) (rest : List String)
    (h1 : t ≠ "startpos") (h2 : t ≠ "moves")
    (hw : ∀ c ∈ t.data, isSpaceChar c = false)
    (hrest : rest = [] ∨ ∃ rs, rest = "moves" :: rs) :
    try_parse_position_cmd ⟨"position" :: t :: rest⟩ = .error (.UnknownToken t) := by
  have hlen : ¬ ((("position" :: t :: rest : List String)).length < 2) := by
    simp [List.length_cons]
  have hft : (t :: rest).takeWhile (fun x => x ≠ "moves") = [t] := by
    rcases hrest with h | ⟨rs, h⟩ <;> subst h <;> simp [List.takeWhile_cons, h2]
  have hfen : is_valid_fen t = false := is_valid_fen_no_space hw
  unfold try_parse_position_cmd
  rw [if_neg hlen]
  simp only [List.drop_succ_cons, List.drop_zero, hft, List.length_cons, List.length_nil,
    List.headD_cons]
  simp [h1, hfen]

theorem position_bare_fen_token_rejected_witness :
    try_parse_position_cmd ⟨["position", "foo"]⟩ = .error (.UnknownToken "foo") :=
  position_bare_fen_token_rejected "foo" [] (by decide) (by decide) (by decide) (Or.inl rfl)

/-- C5: `build_info_msg` renders one space-prefixed fragment per
non-`Custom` entry in input order, and the `Custom` text is never rendered
in place: if present it appears exactly once as a final string fragment. -/
theorem build_info_msg_renders_custom_last (info : List MoveInfo) :
    build_info_msg info =
      "info" ++ nonCustomFrags info ++
        (match lastCustomText info with
         | some text => " string " ++ text
         | none => "") :=
  build_info_msg_eq info

/-- C6: on a valid keyword stream over {"movetime", "infinite"},
`try_parse_go_cmd` succeeds with the value following the last "movetime"
(0 if absent) and with `infinite` true iff "infinite" occurs. -/
theorem go_parser_keyword_stream (rest : List String) (h : GoStream rest) (hne : rest ≠ []) :
    try_parse_go_cmd ⟨"go" :: rest⟩ =
      .ok ⟨((movetimeValues rest).getLast?).getD 0, rest.contains "infinite"⟩ := by
  rw [try_parse_go_cons rest hne, goLoop_stream h 0 false, Bool.false_or]

theorem go_parser_keyword_stream_witness :
    try_parse_go_cmd ⟨["go", "movetime", "5", "infinite", "movetime", "7"]⟩
      = .ok ⟨7, true⟩ := by
  have hs : GoStream ["movetime", "5", "infinite", "movetime", "7"] :=
    .movetime "5" _ (by decide) (.infinite _ (.movetime "7" [] (by decide) .nil))
  exact (go_parser_keyword_stream _ hs (by decide)).trans (by decide)

/-- C7: after a valid stream prefix, a "movetime" whose follower does not
parse as a non-negative 64-bit integer makes `try_parse_go_cmd` fail with
`UnknownToken` carrying the follower, and a trailing "movetime" with no
follower fails with `UnknownToken` carrying "movetime" itself. -/
theorem go_parser_movetime_errors (pre rest : List String) (bad : String)
    (hpre : GoStream pre) (hbad : parseU64 bad = none) :
    try_parse_go_cmd ⟨"go" :: (pre ++ "movetime" :: bad :: rest)⟩
      = .error (.UnknownToken bad) ∧
    try_parse_go_cmd ⟨"go" :: (pre ++ ["movetime"])⟩
      = .error (.UnknownToken "movetime") := by
  constructor
  · obtain ⟨mt2, inf2, heq⟩ := goLoop_stream_append hpre ("movetime" :: bad :: rest) 0 false
    rw [try_parse_go_cons _ (by simp), heq, goLoop_movetime_none hbad]
  · obtain ⟨mt2, inf2, heq⟩ := goLoop_stream_append hpre ["movetime"] 0 false
    rw [try_parse_go_cons _ (by simp), heq, goLoop_movetime_alone]

theorem go_parser_movetime_errors_witness :
    try_parse_go_cmd ⟨["go", "infinite", "movetime", "-5"]⟩ = .error (.UnknownToken "-5") ∧
    try_parse_go_cmd ⟨["go", "infinite", "movetime"]⟩ = .error (.UnknownToken "movetime") :=
  go_parser_movetime_errors ["infinite"] [] "-5" (.infinite [] .nil) (by decide)

/-- C8: `build_option_msg` emits the name/type header, then the default
fragment iff the kind is not Button, then min/max iff the kind is Spin
with min ≠ max, then var iff the kind is Combo with a non-empty list, and
nothing else. -/
theorem build_option_msg_fragments (option : OptionMsg) :
    build_option_msg option =
      "option name " ++ option.id ++ " type " ++ optionTypeKeyword option.option_type
      ++ (if option.option_type ≠ OptionType.Button then " default " ++ option.default else "")
      ++ (if option.option_type = OptionType.Spin ∧ option.min ≠ option.max then
            " min " ++ toString option.min ++ " max " ++ toString option.max
          else "")
      ++ (if option.option_type = OptionType.Combo ∧ option.var ≠ [] then
            " var " ++ String.intercalate " " option.var
          else "") := by
  obtain ⟨i, ty, d, mn, mx, vr⟩ := option
  cases ty
  case Spin =>
    by_cases hmx : mn = mx <;>
      simp [build_option_msg, OptionMsg.has_default, OptionMsg.has_min_max, OptionMsg.has_var,
        optionTypeKeyword, hmx, String.ext_iff, String.data_append, List.append_assoc,
        show ("" : String).data = ([] : List Char) from rfl]
  case Combo =>
    by_cases hv : vr = [] <;>
      simp [build_option_msg, OptionMsg.has_default, OptionMsg.has_min_max, OptionMsg.has_var,
        optionTypeKeyword, hv, List.length_pos, String.ext_iff, String.data_append,
        List.append_assoc, show ("" : String).data = ([] : List Char) from rfl]
  all_goals
    simp [build_option_msg, OptionMsg.has_default, OptionMsg.has_min_max, OptionMsg.has_var,
      optionTypeKeyword, String.ext_iff, String.data_append, List.append_assoc,
      show ("" : String).data = ([] : List Char) from rfl]

/-- C9: every parser that checks both a token-count bound and a first-token
literal performs the count check first: when both are violated the result
is `InvalidLength`, never `InvalidCommandType`. -/
theorem parsers_check_length_before_literal (cmd : Command) (val : String) :
    (cmd.tokens.length ≠ 1 → cmd.tokens.headD "" ≠ val →
      try_single_token_cmd cmd val = .error (.InvalidLength 1 1 cmd.tokens.length)) ∧
    (cmd.tokens.length ≠ 1 → cmd.tokens.headD "" ≠ "uci" →
      try_parse_uci_cmd cmd = .error (.InvalidLength 1 1 cmd.tokens.length)) ∧
    (cmd.tokens.length ≠ 1 → cmd.tokens.headD "" ≠ "isready" →
      try_parse_is_ready_cmd cmd = .error (.InvalidLength 1 1 cmd.tokens.length)) ∧
    (cmd.tokens.length ≠ 1 → cmd.tokens.headD "" ≠ "ucinewgame" →
      try_parse_uci_new_game_cmd cmd = .error (.InvalidLength 1 1 cmd.tokens.length)) ∧
    (cmd.tokens.length ≠ 1 → cmd.tokens.headD "" ≠ "stop" →
      try_parse_stop_cmd cmd = .error (.InvalidLength 1 1 cmd.tokens.length)) ∧
    (cmd.tokens.length ≠ 1 → cmd.tokens.headD "" ≠ "quit" →
      try_parse_quit_cmd cmd = .error (.InvalidLength 1 1 cmd.tokens.length)) ∧
    (cmd.tokens.length ≠ 2 → cmd.tokens.headD "" ≠ "debug" →
      try_parse_debug_cmd cmd = .error (.InvalidLength 2 2 cmd.tokens.length)) ∧
    (cmd.tokens.length < 2 → cmd.tokens.headD "" ≠ "go" →
      try_parse_go_cmd cmd = .error (.InvalidLength 2 USIZE_MAX cmd.tokens.length)) ∧
    (cmd.tokens.length < 3 → cmd.tokens.headD "" ≠ "setoption" →
      try_parse_option_cmd cmd = .error (.InvalidLength 3 USIZE_MAX cmd.tokens.length)) := by
  refine ⟨?_, ?_, ?_, ?_, ?_, ?_, ?_, ?_, ?_⟩ <;> intro h hm <;>
    simp [try_single_token_cmd, try_parse_uci_cmd, try_parse_is_ready_cmd,
      try_parse_uci_new_game_cmd, try_parse_stop_cmd, try_parse_quit_cmd,
      try_parse_debug_cmd, try_parse_go_cmd, try_parse_option_cmd, h]

theorem parsers_check_length_before_literal_witness :
    try_single_token_cmd ⟨[]⟩ "quit" = .error (.InvalidLength 1 1 0) ∧
    try_parse_uci_cmd ⟨[]⟩ = .error (.InvalidLength 1 1 0) ∧
    try_parse_is_ready_cmd ⟨[]⟩ = .error (.InvalidLength 1 1 0) ∧
    try_parse_uci_new_game_cmd ⟨[]⟩ = .error (.InvalidLength 1 1 0) ∧
    try_parse_stop_cmd ⟨[]⟩ = .error (.InvalidLength 1 1 0) ∧
    try_parse_quit_cmd ⟨[]⟩ = .error (.InvalidLength 1 1 0) ∧
    try_parse_debug_cmd ⟨[]⟩ = .error (.InvalidLength 2 2 0) ∧
    try_parse_go_cmd ⟨[]⟩ = .error (.InvalidLength 2 USIZE_MAX 0) ∧
    try_parse_option_cmd ⟨[]⟩ = .error (.InvalidLength 3 USIZE_MAX 0) := by
  have h := parsers_check_length_before_literal ⟨[]⟩ "quit"
  exact ⟨h.1 (by decide) (by decide), h.2.1 (by decide) (by decide),
    h.2.2.1 (by decide) (by decide), h.2.2.2.1 (by decide) (by decide),
    h.2.2.2.2.1 (by decide) (by decide), h.2.2.2.2.2.1 (by decide) (by decide),
    h.2.2.2.2.2.2.1 (by decide) (by decide), h.2.2.2.2.2.2.2.1 (by decide) (by decide),
    h.2.2.2.2.2.2.2.2 (by decide) (by decide)⟩

/-- C10: when a later `Custom` entry exists, dropping an earlier `Custom`
entry does not change the output: only the last `Custom` text is rendered,
earlier ones are silently overwritten. -/
theorem build_info_msg_last_custom_wins (pre rest : List MoveInfo) (s : String)
    (h : ∃ u, MoveInfo.Custom u ∈ rest) :
    build_info_msg (pre ++ MoveInfo.Custom s :: rest) = build_info_msg (pre ++ rest) := by
  rw [build_info_msg_eq, build_info_msg_eq]
  have h1 : nonCustomFrags (pre ++ MoveInfo.Custom s :: rest)
      = nonCustomFrags (pre ++ rest) := by
    rw [nonCustomFrags_append, nonCustomFrags_append]
    rfl
  have h2 : lastCustomText (pre ++ MoveInfo.Custom s :: rest)
      = lastCustomText (pre ++ rest) := by
    unfold lastCustomText
    rw [customFold_append, customFold_append]
    have hstep : customFold (customFold none pre) (MoveInfo.Custom s :: rest)
        = customFold (some s) rest := by
      simp [customFold]
    rw [hstep]
    exact customFold_congr (some s) (customFold none pre) rest h
  rw [h1, h2]

theorem build_info_msg_last_custom_wins_witness :
    build_info_msg
        [MoveInfo.Depth 1, MoveInfo.Custom "a", MoveInfo.SelDepth 2, MoveInfo.Custom "b"]
      = build_info_msg [MoveInfo.Depth 1, MoveInfo.SelDepth 2, MoveInfo.Custom "b"] ∧
    build_info_msg [MoveInfo.Depth 1, MoveInfo.SelDepth 2, MoveInfo.Custom "b"]
      = "info depth 1 seldepth 2 string b" := by
  constructor
  · exact build_info_msg_last_custom_wins [MoveInfo.Depth 1]
      [MoveInfo.SelDepth 2, MoveInfo.Custom "b"] "a" ⟨"b", by decide⟩
  · decide

end Ivy
